import Mathlib

/-!
A verification model of the goldy golden-fixture library.

This file gives a shallow embedding of the core of `goldy.go` (the golden
fixture reconciliation engine) and proves properties of it.

Modelling conventions:
* Go `[]byte` is modelled as `List Nat` (`Bytes`); `bytes.Equal` is list
  equality (Go treats nil and empty slices as equal, and both are `[]` here).
* A Go `map[string][]byte` is modelled as an association list together with a
  key-uniqueness predicate `NodupKeys` (a Go map cannot hold a key twice).
  Map lookup is `findEntry`, which returns the first binding.
* The file system visible to the library is itself a `Fixtures` value: the
  mapping from absolute-ish slash-joined paths to file contents.  `Load`
  (which in Go performs `filepath.Walk`) becomes a pure function of that
  mapping: the walk visits exactly the regular files whose path lies below
  the root directory, skips directories, and skips excluded paths.
* Error-free I/O is assumed for the pure reconciler model; a second model
  (`Disk`, `LoadE`) adds the walk's error channel for the claims about
  error handling.
-/

namespace Goldy

/-- Go `[]byte`, one `Nat` per byte. -/
abbrev Bytes := List Nat

/-- Source `type Fixtures map[string][]byte`, as an association list. -/
abbrev Fixtures := List (String × Bytes)

/-- Go-map wellformedness: every key occurs at most once. -/
def NodupKeys (f : Fixtures) : Prop := (f.map Prod.fst).Nodup

instance (f : Fixtures) : Decidable (NodupKeys f) := by
  unfold NodupKeys; infer_instance

/-- Map lookup `f[key]` returning `none` when the key is absent. -/
def findEntry : Fixtures → String → Option Bytes
  | [], _ => none
  | (q, v) :: rest, p => if p = q then some v else findEntry rest p

/-- Source `type DiffKind string`. -/
abbrev DiffKind := String

/-- Source `DiffMissing DiffKind = "missing"`: the file is only present in fixture a. -/
def DiffMissing : DiffKind := "missing"

/-- Source `DiffUnexpected DiffKind = "added"`: the file is only present in fixture b. -/
def DiffUnexpected : DiffKind := "added"

/-- Source `DiffChanged DiffKind = "changed"`: the content in fixture a differs from b. -/
def DiffChanged : DiffKind := "changed"

/-- Source `type FileDiff struct { Path string; Kind DiffKind; A, B []byte }`.
Unset Go fields hold the zero value, here `""` resp. `[]`. -/
structure FileDiff where
  Path : String
  Kind : DiffKind
  A : Bytes
  B : Bytes
deriving DecidableEq, Repr

/-- Source `type Diff []*FileDiff`. -/
abbrev Diff := List FileDiff

/-- First pass of `Fixtures.Diff`: iterate the receiver `a`; a path absent
from `b` yields a `DiffMissing` entry (with `A` left at its zero value), a
path bound to different bytes yields a `DiffChanged` entry with `A = b[path]`.
In both cases `B = a[path]`. -/
def diffPassA (b : Fixtures) : Fixtures → Diff
  | [] => []
  | (p, av) :: rest =>
    (match findEntry b p with
     | none => [⟨p, DiffMissing, [], av⟩]
     | some bv => if av = bv then [] else [⟨p, DiffChanged, bv, av⟩])
    ++ diffPassA b rest

/-- Second pass of `Fixtures.Diff`: iterate `b`; a path absent from `a`
yields a `DiffUnexpected` entry.  The Go source populates the entry's `A`
field from `bData, ok := a[bPath]`, a lookup into `a` that has just failed,
so `A` is the zero value `nil` (here `[]`), not `b`'s content. -/
def diffPassB (a : Fixtures) : Fixtures → Diff
  | [] => []
  | (p, _) :: rest =>
    (match findEntry a p with
     | none => [⟨p, DiffUnexpected, [], []⟩]
     | some _ => [])
    ++ diffPassB a rest

/-- The comparator of the final `sort.Slice`: order entries by path. The Go
call sorts with the strict comparison `diff[i].Path < diff[j].Path`; any
correct sort for that comparator produces a list sorted by `≤` on paths, and
we model it with insertion sort for that ordering (the entries produced by
the two passes have pairwise distinct paths, so every correct sort yields the
same list). -/
def pathLE (d e : FileDiff) : Prop := d.Path ≤ e.Path

instance : DecidableRel pathLE := fun d e => by
  unfold pathLE; infer_instance

instance : IsTotal FileDiff pathLE := ⟨fun d e => le_total d.Path e.Path⟩

instance : IsTrans FileDiff pathLE := ⟨fun _ _ _ h h' => le_trans h h'⟩

/-- The strict comparator of the source's `sort.Slice` call. -/
def pathLT (d e : FileDiff) : Prop := d.Path < e.Path

instance : IsAntisymm FileDiff pathLT :=
  ⟨fun _ _ h h' => absurd (lt_trans h h') (lt_irrefl _)⟩

/-- The per-entry function underlying pass 1 of `Fixtures.Diff`
(`diffPassA` is this function mapped over the receiver, see
`diffPassA_eq_filterMap`). -/
def passAEntry (b : Fixtures) (pv : String × Bytes) : Option FileDiff :=
  match findEntry b pv.1 with
  | none => some ⟨pv.1, DiffMissing, [], pv.2⟩
  | some bv => if pv.2 = bv then none else some ⟨pv.1, DiffChanged, bv, pv.2⟩

/-- The per-entry function underlying pass 2 of `Fixtures.Diff`. -/
def passBEntry (a : Fixtures) (pv : String × Bytes) : Option FileDiff :=
  match findEntry a pv.1 with
  | none => some ⟨pv.1, DiffUnexpected, [], []⟩
  | some _ => none

/-- Source `func (a Fixtures) Diff(b Fixtures) Diff`: two passes, then sort by path. -/
def Fixtures.Diff (a b : Fixtures) : Diff :=
  List.insertionSort pathLE (diffPassA b a ++ diffPassB a b)

/-- Splitting a character list at every occurrence of the separator `c`;
the character-level counterpart of `strings.Split` for a one-character
separator (kept structural so that the kernel can evaluate it). -/
def splitOnChar (c : Char) : List Char → List (List Char)
  | [] => [[]]
  | x :: xs =>
    match splitOnChar c xs, decide (x = c) with
    | r, true => [] :: r
    | [], false => [[x]]
    | y :: ys, false => (x :: y) :: ys

/-- Source `filepath.Base`: the last non-empty slash-separated element; `"."` for the
empty path, `"/"` when the path consists only of slashes. -/
def filepathBase (p : String) : String :=
  match (splitOnChar '/' p.data).reverse.find? (fun s => s ≠ []) with
  | some s => String.mk s
  | none => if p = "" then "." else "/"

/-- Source `func IsDotfile(path string) bool`: the basename starts with `"."`. -/
def IsDotfile (path : String) : Bool :=
  match (filepathBase path).data with
  | '.' :: _ => true
  | _ => false

/-- Joining path elements with a slash. -/
def joinParts : List String → String
  | [] => ""
  | [x] => x
  | x :: xs => x ++ "/" ++ joinParts xs

/-- Source `filepath.Join` for the inputs arising here: join the non-empty elements
with a slash.  (The `Clean` Go applies afterwards only rewrites paths
containing `"."`/`".."` components or redundant slashes.) -/
def filepathJoin (elems : List String) : String :=
  joinParts (elems.filter (fun s => s ≠ ""))

/-- Whether a file path lies strictly below the directory `dir`:
`strings.HasPrefix(p, dir + "/")`, at the character-list level. -/
def isUnder (dir p : String) : Bool :=
  List.isPrefixOf (dir.data ++ ['/']) p.data

/-- Source `func Load(path string, exclude func(string) bool) (Fixtures, error)`,
error-free case: `filepath.Walk` visits exactly the regular files below
`dir`; the walk function skips directories and excluded paths and stores
each remaining file's content under its path. -/
def Load (disk : Fixtures) (dir : String) (exclude : String → Bool) : Fixtures :=
  disk.filter (fun pv => isUnder dir pv.1 && !exclude pv.1)

/-- Source `func (f Fixtures) Add(data []byte, path ...string)`: the Go method
panics (`"set already has path: "`) on a duplicate key and otherwise stores
`data` under the joined path; the panic is modelled as `Except.error`. -/
def Fixtures.Add (f : Fixtures) (data : Bytes) (path : List String) :
    Except String Fixtures :=
  let key := filepathJoin path
  match findEntry f key with
  | some _ => Except.error ("set already has path: " ++ key)
  | none => Except.ok ((key, data) :: f)

/-- Source `func (f Fixtures) Paths() []string`: the keys in ascending order. -/
def Fixtures.Paths (f : Fixtures) : List String :=
  List.insertionSort (fun a b : String => a ≤ b) (f.map Prod.fst)

/-- Source `type Flag string`. -/
abbrev Flag := String

/-- Source `FlagUpdate`: update any modified or missing fixtures, delete removed ones. -/
def FlagUpdate : Flag := "update"

/-- Source `FlagDiff`: print a diff for mismatching fixtures. -/
def FlagDiff : Flag := "diff"

/-- The loop body of `parseFlags`: each comma-separated token must be a known
flag; the first unknown token aborts with `unknown flag: "..."`.  The Go
function collects the flags into a `map[Flag]bool`, modelled as the list of
recognized tokens (queried by membership). -/
def parseFlagsList : List String → Except String (List Flag)
  | [] => Except.ok []
  | f :: rest =>
    if f = FlagUpdate || f = FlagDiff then
      match parseFlagsList rest with
      | Except.error e => Except.error e
      | Except.ok r => Except.ok (f :: r)
    else Except.error ("unknown flag: \"" ++ f ++ "\"")

/-- Source `func parseFlags(flags string) (map[Flag]bool, error)`. -/
def parseFlags (flags : String) : Except String (List Flag) :=
  if flags = "" then Except.ok []
  else parseFlagsList ((splitOnChar ',' flags.data).map String.mk)

/-- Source `strings.Join(parts, sep)`. -/
def joinWith (sep : String) : List String → String
  | [] => ""
  | [x] => x
  | x :: xs => x ++ sep ++ joinWith sep xs

/-- Source `type GoldenFixtures struct` with fields `Dir`, `Fixtures`, `Flags`,
`Hint`, `IgnoreUnexpected`, `Exclude` (the Go field `Fixtures` is spelled
`fixtures` here so that it does not shadow the type of the same name). -/
structure GoldenFixtures where
  Dir : String
  fixtures : Fixtures
  Flags : String
  Hint : String
  IgnoreUnexpected : Bool
  Exclude : String → Bool

/-- Source `func (gf *GoldenFixtures) Add(data []byte, path ...string)`: delegates to
`Fixtures.Add` with `gf.Dir` prepended to the path elements. -/
def GoldenFixtures.Add (gf : GoldenFixtures) (data : Bytes) (path : List String) :
    Except String GoldenFixtures :=
  match Fixtures.Add gf.fixtures data (gf.Dir :: path) with
  | Except.error e => Except.error e
  | Except.ok f => Except.ok { gf with fixtures := f }

/-- The filtering loop in `GoldenFixtures.Diff`: keep every entry whose kind
is not `DiffUnexpected`. -/
def dropUnexpected : Diff → Diff
  | [] => []
  | d :: rest =>
    if d.Kind = DiffUnexpected then dropUnexpected rest
    else d :: dropUnexpected rest

/-- Source `func (gf *GoldenFixtures) Diff() (Diff, error)` in the error-free disk
model: load the on-disk set below `gf.Dir`, diff the in-memory set against
it, and, when `IgnoreUnexpected` is set, drop the `DiffUnexpected` entries. -/
def GoldenFixtures.DiffP (gf : GoldenFixtures) (disk : Fixtures) : Diff :=
  let want := Load disk gf.Dir gf.Exclude
  let diff := Fixtures.Diff gf.fixtures want
  if gf.IgnoreUnexpected then dropUnexpected diff else diff

/-- Source `os.Remove(p)` on the modelled disk. -/
def fsRemove (disk : Fixtures) (p : String) : Fixtures :=
  disk.filter (fun e => e.1 != p)

/-- Source `ioutil.WriteFile(p, v, 0600)` on the modelled disk (an in-place
overwrite; represented as remove-then-prepend, which has the same map
semantics). -/
def fsWrite (disk : Fixtures) (p : String) (v : Bytes) : Fixtures :=
  (p, v) :: fsRemove disk p

/-- One iteration of the loop in `GoldenFixtures.update`: a `DiffUnexpected`
entry removes the on-disk file, a `DiffMissing` or `DiffChanged` entry writes
`gf.Fixtures[d.Path]` (the Go map read defaults to `nil` for an absent key);
any other kind does nothing. -/
def applyEntry (fx : Fixtures) (d : FileDiff) (disk : Fixtures) : Fixtures :=
  if d.Kind = DiffUnexpected then fsRemove disk d.Path
  else if d.Kind = DiffMissing || d.Kind = DiffChanged then
    fsWrite disk d.Path ((findEntry fx d.Path).getD [])
  else disk

/-- Source `func (gf *GoldenFixtures) update(diff Diff) error` in the error-free
disk model: apply every entry in order.  (The Go function collects I/O
failures into an aggregate error; with no I/O failures it returns `nil`,
so the model returns the new disk state.) -/
def GoldenFixtures.update (gf : GoldenFixtures) : Diff → Fixtures → Fixtures
  | [], disk => disk
  | d :: rest, disk => GoldenFixtures.update gf rest (applyEntry gf.fixtures d disk)

/-- The per-entry message lines built by the loop in
`GoldenFixtures.compare`; `td` stands for the external `textDiff` rendering
collaborator (difflib), whose output is appended as an extra line for
`DiffChanged` entries when the diff flag is set. -/
def entryLines (td : Bytes → Bytes → String) (diffFlag : Bool) : Diff → List String
  | [] => []
  | d :: rest =>
    (if d.Kind = DiffUnexpected then ["unexpected file: " ++ d.Path]
     else if d.Kind = DiffMissing then ["missing file: " ++ d.Path]
     else if d.Kind = DiffChanged then
       if diffFlag then ["changed file: " ++ d.Path, td d.A d.B]
       else ["changed file: " ++ d.Path]
     else [])
    ++ entryLines td diffFlag rest

/-- Source `func (gf *GoldenFixtures) compare(diff Diff, diffFlag bool) error`:
`none` models a `nil` error, `some msg` the formatted aggregate error. -/
def GoldenFixtures.compare (gf : GoldenFixtures) (td : Bytes → Bytes → String)
    (diff : Diff) (diffFlag : Bool) : Option String :=
  if diff.length = 0 then none
  else
    some (toString diff.length ++ " errors:\n"
      ++ joinWith "\n" (entryLines td diffFlag diff)
      ++ "\n\nrun `" ++ gf.Hint ++ "` to automatically update all files above")

/-- Source `func (gf *GoldenFixtures) Test() error` in the error-free disk model:
parse `gf.Flags`, compute the diff, then either update the disk (update
mode) or compare.  The result carries the disk state afterwards (compare
mode never writes); `Except.error` models a non-nil returned error. -/
def GoldenFixtures.Test (gf : GoldenFixtures) (td : Bytes → Bytes → String)
    (disk : Fixtures) : Except String Fixtures :=
  match parseFlags gf.Flags with
  | Except.error e => Except.error e
  | Except.ok flags =>
    let diff := gf.DiffP disk
    if FlagUpdate ∈ flags then Except.ok (gf.update diff disk)
    else
      match gf.compare td diff (FlagDiff ∈ flags) with
      | none => Except.ok disk
      | some m => Except.error m

/-- Source `type Config struct`; the Go `Exclude` field is a possibly-nil function
value, hence an `Option` here. -/
structure Config where
  Dir : String
  Flags : String
  Hint : String
  IgnoreUnexpected : Bool
  Exclude : Option (String → Bool)

/-- Source `func (c Config) WithDefaults() Config`: empty `Dir` becomes
`"test-fixtures"`, nil `Exclude` becomes `IsDotfile`. -/
def Config.WithDefaults (c : Config) : Config :=
  { c with
    Dir := if c.Dir = "" then "test-fixtures" else c.Dir
    Exclude := match c.Exclude with
      | none => some IsDotfile
      | some e => some e }

/-- Source `func (c Config) GoldenFixtures(path ...string) *GoldenFixtures`.  Note:
the source initializes the `Exclude` field with the literal `IsDotfile`, not
with `c.Exclude` (even though the `Config.Exclude` doc comment says the
predicate is used when loading golden fixtures). -/
def Config.GoldenFixtures (c : Config) (path : List String) : GoldenFixtures :=
  { Dir := filepathJoin (c.Dir :: path)
    fixtures := []
    Flags := c.Flags
    Hint := c.Hint
    IgnoreUnexpected := c.IgnoreUnexpected
    Exclude := IsDotfile }

/-- The error channel of `filepath.Walk` as seen by `Load`: the root
directory may not exist (`os.IsNotExist`), or reading some file may fail. -/
inductive WalkErr
  | notExist
  | other (msg : String)
deriving DecidableEq

/-- A disk with its failure modes: the regular files it holds, which
directories exist, and which file reads fail. -/
structure Disk where
  files : Fixtures
  dirExists : String → Bool
  readErr : String → Option String

/-- Ordering of walked files: `filepath.Walk` visits files in lexical path
order. -/
def keyLE (a b : String × Bytes) : Prop := a.1 ≤ b.1

instance : DecidableRel keyLE := fun a b => by
  unfold keyLE; infer_instance

instance : IsTotal (String × Bytes) keyLE := ⟨fun a b => le_total a.1 b.1⟩

instance : IsTrans (String × Bytes) keyLE := ⟨fun _ _ _ h h' => le_trans h h'⟩

/-- The regular files `filepath.Walk dir` visits, in lexical order. -/
def walkFiles (d : Disk) (dir : String) : Fixtures :=
  List.insertionSort keyLE (d.files.filter (fun pv => isUnder dir pv.1))

/-- The walk-function loop of `Load` with the error channel: excluded paths
are skipped, a failing read aborts the walk and surfaces its error, every
other file is stored.  Files visited before an aborting error remain in the
returned set, as in the Go code. -/
def loadWalk (d : Disk) (exclude : String → Bool) : Fixtures → Fixtures × Option WalkErr
  | [] => ([], none)
  | (p, v) :: rest =>
    if exclude p then loadWalk d exclude rest
    else
      match d.readErr p with
      | some m => ([], some (WalkErr.other m))
      | none =>
        let r := loadWalk d exclude rest
        ((p, v) :: r.1, r.2)

/-- Source `func Load(path string, exclude func(string) bool) (Fixtures, error)`
with the walk's error channel: a non-existent root makes `filepath.Walk`
report `os.IsNotExist` immediately (with nothing loaded), otherwise the walk
runs over the files below `dir`. -/
def LoadE (d : Disk) (dir : String) (exclude : String → Bool) :
    Fixtures × Option WalkErr :=
  if d.dirExists dir then loadWalk d exclude (walkFiles d dir)
  else ([], some WalkErr.notExist)

/-- Source `func (gf *GoldenFixtures) Diff() (Diff, error)` over the error-aware
disk model: a load error other than `os.IsNotExist` is returned as
`failed to load golden fixtures: ...`; otherwise the diff is computed
against whatever was loaded (the empty set when the directory is absent). -/
def GoldenFixtures.DiffE (gf : GoldenFixtures) (d : Disk) : Except String Diff :=
  let r := LoadE d gf.Dir gf.Exclude
  match r.2 with
  | some (WalkErr.other m) => Except.error ("failed to load golden fixtures: " ++ m)
  | _ =>
    let diff := Fixtures.Diff gf.fixtures r.1
    Except.ok (if gf.IgnoreUnexpected then dropUnexpected diff else diff)

/-- The line `compare` emits for one diff entry (the rendered-diff extra line
for `DiffChanged` entries is only added when the diff flag is set, see
`entryLines`). -/
def entryLine (d : FileDiff) : String :=
  if d.Kind = DiffUnexpected then "unexpected file: " ++ d.Path
  else if d.Kind = DiffMissing then "missing file: " ++ d.Path
  else "changed file: " ++ d.Path

/-- A trivial stand-in for the external text-diff rendering collaborator. -/
def tdNone : Bytes → Bytes → String := fun _ _ => ""

/-- An exclusion predicate that excludes nothing. -/
def neverExclude : String → Bool := fun _ => false

/-- A `Config` carrying a non-nil custom exclusion predicate. -/
def c9cfg : Config := ⟨"d", "", "h", false, some neverExclude⟩

/-- A reconciler in update mode whose only fixture is loader-visible. -/
def gfIdem : GoldenFixtures := ⟨"d", [("d/a", [1])], "update", "h", false, IsDotfile⟩

/-- A reconciler in update mode whose only fixture is a dotfile, which the
default exclusion predicate hides from the loader. -/
def gfDot : GoldenFixtures := ⟨"d", [("d/.a", [1])], "update", "h", false, IsDotfile⟩

/-- A reconciler with `IgnoreUnexpected` set. -/
def gfIgn : GoldenFixtures := ⟨"d", [("d/m", [1])], "", "h", true, IsDotfile⟩

/-- A disk holding one file the in-memory set of `gfIgn` does not mention. -/
def dskIgn : Fixtures := [("d/u", [2])]

/-- A reconciler used for exercising `compare`. -/
def gfCmp : GoldenFixtures := ⟨"d", [], "", "HINT", false, IsDotfile⟩

/-- A disk on which no directory exists. -/
def dskAbsent : Disk := ⟨[], fun _ => false, fun _ => none⟩

/-- A disk whose directories exist but on which every file read fails. -/
def dskBroken : Disk := ⟨[("d/a", [1])], fun _ => true, fun _ => some "boom"⟩

/-- A reconciler over directory `d` that excludes nothing. -/
def gfDisk : GoldenFixtures := ⟨"d", [], "", "h", false, neverExclude⟩

/-! ## Lemmas about map lookup -/

theorem findEntry_eq_none (f : Fixtures) (p : String) :
    findEntry f p = none ↔ p ∉ f.map Prod.fst := by
  induction f with
  | nil => simp [findEntry]
  | cons pv rest ih =>
    obtain ⟨q, v⟩ := pv
    by_cases h : p = q <;> simp [findEntry, h, ih]

theorem mem_of_findEntry_eq_some {f : Fixtures} {p : String} {v : Bytes}
    (h : findEntry f p = some v) : (p, v) ∈ f := by
  induction f with
  | nil => simp [findEntry] at h
  | cons pv rest ih =>
    obtain ⟨q, w⟩ := pv
    by_cases hpq : p = q
    · subst hpq
      simp [findEntry] at h
      simp [h]
    · simp [findEntry, hpq] at h
      simp [ih h]

theorem findEntry_eq_some_of_mem {f : Fixtures} {p : String} {v : Bytes}
    (hnd : NodupKeys f) (hm : (p, v) ∈ f) : findEntry f p = some v := by
  induction f with
  | nil => simp at hm
  | cons pv rest ih =>
    obtain ⟨q, w⟩ := pv
    have hnd' : NodupKeys rest := (List.nodup_cons.mp hnd).2
    rcases List.mem_cons.mp hm with h | h
    · obtain ⟨h1, h2⟩ := Prod.mk.injEq .. ▸ h
      simp_all [findEntry]
    · have hq : q ∉ rest.map Prod.fst := (List.nodup_cons.mp hnd).1
      have hpq : p ≠ q := by
        rintro rfl
        exact hq (List.mem_map.mpr ⟨(p, v), h, rfl⟩)
      simp [findEntry, hpq, ih hnd' h]

theorem findEntry_isSome_iff (f : Fixtures) (p : String) :
    (findEntry f p).isSome ↔ p ∈ f.map Prod.fst := by
  rcases h : findEntry f p with _ | v
  · simpa [Option.isSome] using (findEntry_eq_none f p).mp h
  · simp only [Option.isSome, true_iff]
    exact List.mem_map.mpr ⟨(p, v), mem_of_findEntry_eq_some h, rfl⟩

theorem findEntry_perm {f g : Fixtures} (hnd : NodupKeys f) (hp : f.Perm g)
    (p : String) : findEntry f p = findEntry g p := by
  have hndg : NodupKeys g := (hp.map Prod.fst).nodup_iff.mp hnd
  rcases h : findEntry f p with _ | v
  · rcases hg : findEntry g p with _ | w
    · rfl
    · exfalso
      have hmem : (p, w) ∈ f := hp.mem_iff.mpr (mem_of_findEntry_eq_some hg)
      exact (findEntry_eq_none f p).mp h (List.mem_map.mpr ⟨(p, w), hmem, rfl⟩)
  · exact (findEntry_eq_some_of_mem hndg (hp.mem_iff.mp (mem_of_findEntry_eq_some h))).symm

/-! ## Lemmas about the two diff passes -/

theorem diffPassA_eq_filterMap (b l : Fixtures) :
    diffPassA b l = l.filterMap (passAEntry b) := by
  induction l with
  | nil => rfl
  | cons pv rest ih =>
    obtain ⟨p, av⟩ := pv
    rcases h : findEntry b p with _ | bv
    · simp [diffPassA, List.filterMap_cons, passAEntry, h, ih]
    · by_cases hv : av = bv <;>
        simp [diffPassA, List.filterMap_cons, passAEntry, h, hv, ih]

theorem diffPassB_eq_filterMap (a l : Fixtures) :
    diffPassB a l = l.filterMap (passBEntry a) := by
  induction l with
  | nil => rfl
  | cons pv rest ih =>
    obtain ⟨p, bv⟩ := pv
    rcases h : findEntry a p with _ | av <;>
      simp [diffPassB, List.filterMap_cons, passBEntry, h, ih]

theorem diffPassA_congr {b b' : Fixtures} (l : Fixtures)
    (h : ∀ p, findEntry b p = findEntry b' p) : diffPassA b l = diffPassA b' l := by
  rw [diffPassA_eq_filterMap, diffPassA_eq_filterMap]
  exact List.filterMap_congr (fun pv _ => by unfold passAEntry; rw [h pv.1])

theorem diffPassB_congr {a a' : Fixtures} (l : Fixtures)
    (h : ∀ p, findEntry a p = findEntry a' p) : diffPassB a l = diffPassB a' l := by
  rw [diffPassB_eq_filterMap, diffPassB_eq_filterMap]
  exact List.filterMap_congr (fun pv _ => by unfold passBEntry; rw [h pv.1])

theorem diffPassA_paths_sublist (b l : Fixtures) :
    ((diffPassA b l).map FileDiff.Path).Sublist (l.map Prod.fst) := by
  induction l with
  | nil => simp [diffPassA]
  | cons pv rest ih =>
    obtain ⟨p, av⟩ := pv
    rcases h : findEntry b p with _ | bv
    · simpa [diffPassA, h] using ih.cons₂ p
    · by_cases hv : av = bv
      · simpa [diffPassA, h, hv] using ih.cons p
      · simpa [diffPassA, h, hv] using ih.cons₂ p

theorem diffPassB_paths_sublist (a l : Fixtures) :
    ((diffPassB a l).map FileDiff.Path).Sublist (l.map Prod.fst) := by
  induction l with
  | nil => simp [diffPassB]
  | cons pv rest ih =>
    obtain ⟨p, bv⟩ := pv
    rcases h : findEntry a p with _ | av
    · simpa [diffPassB, h] using ih.cons₂ p
    · simpa [diffPassB, h] using ih.cons p

theorem mem_diffPassA_spec {b l : Fixtures} {e : FileDiff} (he : e ∈ diffPassA b l) :
    (e.Path, e.B) ∈ l ∧
      ((e.Kind = DiffMissing ∧ findEntry b e.Path = none ∧ e.A = []) ∨
       (e.Kind = DiffChanged ∧ findEntry b e.Path = some e.A ∧ e.B ≠ e.A)) := by
  rw [diffPassA_eq_filterMap] at he
  obtain ⟨pv, hpv, hf⟩ := List.mem_filterMap.mp he
  unfold passAEntry at hf
  rcases h : findEntry b pv.1 with _ | bv <;> rw [h] at hf
  · obtain rfl := Option.some.injEq .. ▸ hf
    exact ⟨hpv, Or.inl ⟨rfl, h, rfl⟩⟩
  · by_cases hv : pv.2 = bv
    · simp [hv] at hf
    · simp only [hv, if_false, Option.some.injEq] at hf
      subst hf
      exact ⟨hpv, Or.inr ⟨rfl, h, hv⟩⟩

theorem mem_diffPassB_spec {a l : Fixtures} {e : FileDiff} (he : e ∈ diffPassB a l) :
    e.Path ∈ l.map Prod.fst ∧ e.Kind = DiffUnexpected ∧
      findEntry a e.Path = none ∧ e.A = [] ∧ e.B = [] := by
  rw [diffPassB_eq_filterMap] at he
  obtain ⟨pv, hpv, hf⟩ := List.mem_filterMap.mp he
  unfold passBEntry at hf
  rcases h : findEntry a pv.1 with _ | av <;> rw [h] at hf
  · obtain rfl := Option.some.injEq .. ▸ hf
    exact ⟨List.mem_map.mpr ⟨pv, hpv, rfl⟩, rfl, h, rfl, rfl⟩
  · simp at hf

theorem diffPassA_eq_nil {b l : Fixtures}
    (h : ∀ pv ∈ l, findEntry b pv.1 = some pv.2) : diffPassA b l = [] := by
  induction l with
  | nil => rfl
  | cons pv rest ih =>
    obtain ⟨p, av⟩ := pv
    have hp := h (p, av) (List.mem_cons_self _ _)
    simp only at hp
    simp [diffPassA, hp, ih (fun qv hq => h qv (List.mem_cons_of_mem _ hq))]

theorem diffPassB_eq_nil {a l : Fixtures}
    (h : ∀ pv ∈ l, (findEntry a pv.1).isSome) : diffPassB a l = [] := by
  induction l with
  | nil => rfl
  | cons pv rest ih =>
    obtain ⟨p, bv⟩ := pv
    have hp := h (p, bv) (List.mem_cons_self _ _)
    rcases hf : findEntry a p with _ | av
    · rw [hf] at hp; simp [Option.isSome] at hp
    · simp [diffPassB, hf, ih (fun qv hq => h qv (List.mem_cons_of_mem _ hq))]

theorem mem_diffPassA_exists {l : Fixtures} {b : Fixtures} {p : String} {v : Bytes}
    (hm : (p, v) ∈ l) (hne : findEntry b p ≠ some v) :
    ∃ e ∈ diffPassA b l, e.Path = p ∧
      (e.Kind = DiffMissing ∨ e.Kind = DiffChanged) := by
  rw [diffPassA_eq_filterMap]
  rcases h : findEntry b p with _ | bv
  · refine ⟨⟨p, DiffMissing, [], v⟩, ?_, rfl, Or.inl rfl⟩
    exact List.mem_filterMap.mpr ⟨(p, v), hm, by simp [passAEntry, h]⟩
  · have hv : v ≠ bv := fun hv => hne (hv ▸ h)
    refine ⟨⟨p, DiffChanged, bv, v⟩, ?_, rfl, Or.inr rfl⟩
    exact List.mem_filterMap.mpr ⟨(p, v), hm, by simp [passAEntry, h, hv]⟩

theorem mem_diffPassB_exists {l : Fixtures} {a : Fixtures} {p : String} {v : Bytes}
    (hm : (p, v) ∈ l) (hnone : findEntry a p = none) :
    (⟨p, DiffUnexpected, [], []⟩ : FileDiff) ∈ diffPassB a l := by
  rw [diffPassB_eq_filterMap]
  exact List.mem_filterMap.mpr ⟨(p, v), hm, by simp [passBEntry, hnone]⟩

/-! ## Sortedness and determinism of `Fixtures.Diff` -/

theorem diff_perm_passes (a b : Fixtures) :
    (Fixtures.Diff a b).Perm (diffPassA b a ++ diffPassB a b) :=
  List.perm_insertionSort pathLE _

theorem diff_paths_nodup {a b : Fixtures} (ha : NodupKeys a) (hb : NodupKeys b) :
    ((Fixtures.Diff a b).map FileDiff.Path).Nodup := by
  refine ((diff_perm_passes a b).map FileDiff.Path).nodup_iff.mpr ?_
  rw [List.map_append, List.nodup_append]
  refine ⟨List.Nodup.sublist (diffPassA_paths_sublist b a) ha,
    List.Nodup.sublist (diffPassB_paths_sublist a b) hb, ?_⟩
  intro p hpA hpB
  obtain ⟨e, he, rfl⟩ := List.mem_map.mp hpA
  obtain ⟨e', he', hpe⟩ := List.mem_map.mp hpB
  have h1 := (mem_diffPassA_spec he).1
  have h2 := (mem_diffPassB_spec he').2.2.1
  rw [hpe] at h2
  exact (findEntry_eq_none a e.Path).mp h2 (List.mem_map.mpr ⟨(e.Path, e.B), h1, rfl⟩)

theorem diff_sorted_le (a b : Fixtures) : List.Sorted pathLE (Fixtures.Diff a b) :=
  List.sorted_insertionSort pathLE _

theorem diff_sorted_lt {a b : Fixtures} (ha : NodupKeys a) (hb : NodupKeys b) :
    List.Pairwise pathLT (Fixtures.Diff a b) := by
  have hs : List.Pairwise pathLE (Fixtures.Diff a b) := diff_sorted_le a b
  have hne : List.Pairwise (fun d e : FileDiff => d.Path ≠ e.Path) (Fixtures.Diff a b) :=
    List.pairwise_map.mp (diff_paths_nodup ha hb)
  exact (hs.and hne).imp (fun h => lt_of_le_of_ne h.1 h.2)

theorem diff_det {a b a₂ b₂ : Fixtures} (ha : NodupKeys a) (hb : NodupKeys b)
    (hpa : a.Perm a₂) (hpb : b.Perm b₂) :
    Fixtures.Diff a b = Fixtures.Diff a₂ b₂ := by
  have ha₂ : NodupKeys a₂ := (hpa.map Prod.fst).nodup_iff.mp ha
  have hb₂ : NodupKeys b₂ := (hpb.map Prod.fst).nodup_iff.mp hb
  have hA : (diffPassA b a).Perm (diffPassA b₂ a₂) := by
    rw [diffPassA_congr a (findEntry_perm hb hpb), diffPassA_eq_filterMap,
      diffPassA_eq_filterMap]
    exact hpa.filterMap _
  have hB : (diffPassB a b).Perm (diffPassB a₂ b₂) := by
    rw [diffPassB_congr b (findEntry_perm ha hpa), diffPassB_eq_filterMap,
      diffPassB_eq_filterMap]
    exact hpb.filterMap _
  exact List.eq_of_perm_of_sorted
    ((diff_perm_passes a b).trans ((hA.append hB).trans (diff_perm_passes a₂ b₂).symm))
    (diff_sorted_lt ha hb) (diff_sorted_lt ha₂ hb₂)

/-! ## Lemmas about `dropUnexpected` -/

theorem dropUnexpected_eq_filter (l : Diff) :
    dropUnexpected l = l.filter (fun d => d.Kind != DiffUnexpected) := by
  induction l with
  | nil => rfl
  | cons d rest ih =>
    by_cases h : d.Kind = DiffUnexpected <;> simp [dropUnexpected, h, ih]

theorem mem_dropUnexpected {l : Diff} {e : FileDiff} :
    e ∈ dropUnexpected l ↔ e ∈ l ∧ e.Kind ≠ DiffUnexpected := by
  rw [dropUnexpected_eq_filter, List.mem_filter]
  simp

theorem dropUnexpected_sublist (l : Diff) : (dropUnexpected l).Sublist l := by
  rw [dropUnexpected_eq_filter]; exact List.filter_sublist l

theorem dropUnexpected_eq_nil {l : Diff} (h : ∀ d ∈ l, d.Kind = DiffUnexpected) :
    dropUnexpected l = [] := by
  induction l with
  | nil => rfl
  | cons d rest ih =>
    simp [dropUnexpected, h d (List.mem_cons_self _ _),
      ih (fun e he => h e (List.mem_cons_of_mem _ he))]

/-! ## Lemmas about the modelled file-system operations -/

theorem findEntry_fsRemove (disk : Fixtures) (p q : String) :
    findEntry (fsRemove disk p) q = if q = p then none else findEntry disk q := by
  induction disk with
  | nil => simp [fsRemove, findEntry]
  | cons pv rest ih =>
    obtain ⟨r, w⟩ := pv
    by_cases hrp : r = p
    · subst hrp
      by_cases hqr : q = r <;> simp_all [fsRemove, findEntry]
    · by_cases hqr : q = r
      · subst hqr
        simp_all [fsRemove, findEntry, bne_iff_ne, Ne.symm hrp]
      · simp_all [fsRemove, findEntry, bne_iff_ne]

theorem findEntry_fsWrite (disk : Fixtures) (p : String) (v : Bytes) (q : String) :
    findEntry (fsWrite disk p v) q = if q = p then some v else findEntry disk q := by
  by_cases h : q = p <;> simp [fsWrite, findEntry, h, findEntry_fsRemove]

theorem nodupKeys_filter (g : String × Bytes → Bool) {l : Fixtures}
    (h : NodupKeys l) : NodupKeys (l.filter g) :=
  List.Nodup.sublist ((List.filter_sublist l).map Prod.fst) h

theorem nodupKeys_fsRemove {disk : Fixtures} (h : NodupKeys disk) (p : String) :
    NodupKeys (fsRemove disk p) :=
  nodupKeys_filter _ h

theorem nodupKeys_fsWrite {disk : Fixtures} (h : NodupKeys disk) (p : String)
    (v : Bytes) : NodupKeys (fsWrite disk p v) := by
  refine List.nodup_cons.mpr ⟨?_, nodupKeys_fsRemove h p⟩
  intro hmem
  obtain ⟨⟨q, w⟩, hq, hqp⟩ := List.mem_map.mp hmem
  have := (List.mem_filter.mp hq).2
  simp only at hqp
  subst hqp
  simp [bne_iff_ne] at this

theorem nodupKeys_applyEntry (fx : Fixtures) (d : FileDiff) {disk : Fixtures}
    (h : NodupKeys disk) : NodupKeys (applyEntry fx d disk) := by
  unfold applyEntry
  split
  · exact nodupKeys_fsRemove h _
  · split
    · exact nodupKeys_fsWrite h _ _
    · exact h

theorem nodupKeys_update (gf : GoldenFixtures) (diff : Diff) {disk : Fixtures}
    (h : NodupKeys disk) : NodupKeys (gf.update diff disk) := by
  induction diff generalizing disk with
  | nil => exact h
  | cons d rest ih => exact ih (nodupKeys_applyEntry _ _ h)

theorem findEntry_applyEntry_ne (fx : Fixtures) (d : FileDiff) (disk : Fixtures)
    {q : String} (h : q ≠ d.Path) :
    findEntry (applyEntry fx d disk) q = findEntry disk q := by
  unfold applyEntry
  split
  · rw [findEntry_fsRemove, if_neg h]
  · split
    · rw [findEntry_fsWrite, if_neg h]
    · rfl

theorem findEntry_update_not_mem (gf : GoldenFixtures) :
    ∀ (diff : Diff) (disk : Fixtures) {q : String},
      (∀ d ∈ diff, d.Path ≠ q) →
      findEntry (gf.update diff disk) q = findEntry disk q := by
  intro diff
  induction diff with
  | nil => intro disk q _; rfl
  | cons d rest ih =>
    intro disk q h
    calc findEntry (gf.update (d :: rest) disk) q
        = findEntry (gf.update rest (applyEntry gf.fixtures d disk)) q := rfl
      _ = findEntry (applyEntry gf.fixtures d disk) q :=
          ih _ (fun e he => h e (List.mem_cons_of_mem _ he))
      _ = findEntry disk q :=
          findEntry_applyEntry_ne _ _ _ (Ne.symm (h d (List.mem_cons_self _ _)))

/-! ## Lemmas about `Load` -/

theorem findEntry_filter_key (g : String → Bool) (l : Fixtures) (p : String) :
    findEntry (l.filter (fun pv => g pv.1)) p
      = if g p then findEntry l p else none := by
  induction l with
  | nil => simp [findEntry]
  | cons pv rest ih =>
    obtain ⟨q, v⟩ := pv
    by_cases hgq : g q
    · by_cases hpq : p = q
      · subst hpq; simp [findEntry, hgq]
      · simp [findEntry, hgq, hpq, ih]
    · by_cases hpq : p = q
      · subst hpq; simp [findEntry, hgq, ih]
      · simp [findEntry, hgq, hpq, ih]

theorem findEntry_Load (disk : Fixtures) (dir : String) (ex : String → Bool)
    (p : String) :
    findEntry (Load disk dir ex) p
      = if isUnder dir p && !ex p then findEntry disk p else none :=
  findEntry_filter_key (fun p => isUnder dir p && !ex p) disk p

theorem nodupKeys_Load {disk : Fixtures} (h : NodupKeys disk) (dir : String)
    (ex : String → Bool) : NodupKeys (Load disk dir ex) :=
  nodupKeys_filter _ h

theorem mem_Load {disk : Fixtures} {dir : String} {ex : String → Bool}
    {pv : String × Bytes} (h : pv ∈ Load disk dir ex) :
    pv ∈ disk ∧ isUnder dir pv.1 = true ∧ ex pv.1 = false := by
  have h' := List.mem_filter.mp h
  have h2 := h'.2
  rw [Bool.and_eq_true] at h2
  exact ⟨h'.1, h2.1, by simpa using h2.2⟩

theorem findEntry_update_entry (gf : GoldenFixtures) :
    ∀ (diff : Diff) (disk : Fixtures) {d : FileDiff},
      (diff.map FileDiff.Path).Nodup → d ∈ diff →
      findEntry (gf.update diff disk) d.Path =
        (if d.Kind = DiffUnexpected then none
         else if d.Kind = DiffMissing ∨ d.Kind = DiffChanged then
           some ((findEntry gf.fixtures d.Path).getD [])
         else findEntry disk d.Path) := by
  intro diff
  induction diff with
  | nil => intro disk d _ hd; simp at hd
  | cons e rest ih =>
    intro disk d hnd hd
    rw [List.map_cons, List.nodup_cons] at hnd
    rcases List.mem_cons.mp hd with rfl | hmem
    · have hrest : ∀ d' ∈ rest, d'.Path ≠ d.Path := by
        intro d' hd' heq
        exact hnd.1 (heq ▸ List.mem_map.mpr ⟨d', hd', rfl⟩)
      have hstep : findEntry (gf.update (d :: rest) disk) d.Path
          = findEntry (applyEntry gf.fixtures d disk) d.Path :=
        findEntry_update_not_mem gf rest _ hrest
      rw [hstep]
      unfold applyEntry
      by_cases h1 : d.Kind = DiffUnexpected
      · simp [h1, findEntry_fsRemove]
      · by_cases h2 : d.Kind = DiffMissing ∨ d.Kind = DiffChanged
        · have h2b : (decide (d.Kind = DiffMissing) || decide (d.Kind = DiffChanged)) = true := by
            rcases h2 with h | h <;> simp [h]
          simp [h1, h2, h2b, findEntry_fsWrite]
        · have h2b : (decide (d.Kind = DiffMissing) || decide (d.Kind = DiffChanged)) = false := by
            push_neg at h2
            simp [h2.1, h2.2]
          simp [h1, h2, h2b]
    · have hne : d.Path ≠ e.Path := by
        intro heq
        exact hnd.1 (heq ▸ List.mem_map.mpr ⟨d, hmem, rfl⟩)
      have hstep : gf.update (e :: rest) disk
          = gf.update rest (applyEntry gf.fixtures e disk) := rfl
      rw [hstep, ih _ hnd.2 hmem,
        findEntry_applyEntry_ne gf.fixtures e disk hne]

/-! ## Claim theorems -/

/-- C6: diffing a fixture set against itself yields the empty diff: for every
fixture set `a` with Go-map key uniqueness, `a.Diff(a) = []`. -/
theorem diff_self_empty (a : Fixtures) (h : NodupKeys a) : Fixtures.Diff a a = [] := by
  have hA : diffPassA a a = [] :=
    diffPassA_eq_nil (fun pv hm => findEntry_eq_some_of_mem h (by simpa using hm))
  have hB : diffPassB a a = [] :=
    diffPassB_eq_nil (fun pv hm => by
      rw [findEntry_eq_some_of_mem h (by simpa using hm)]; rfl)
  unfold Fixtures.Diff
  rw [hA, hB]
  rfl

/-- Witness for `diff_self_empty` at a concrete two-element set. -/
theorem diff_self_empty_witness :
    NodupKeys [("a", [1]), ("b", [])] ∧
      Fixtures.Diff [("a", [1]), ("b", [])] [("a", [1]), ("b", [])] = [] :=
  ⟨by decide, diff_self_empty _ (by decide)⟩

/-- C2: in every `Unexpected` entry emitted by pass 2 of `Fixtures.Diff`, the
`A` (expected-content) field is the nil byte slice — the Go code populates it
from a failed lookup into the receiver — so for a disk file with non-empty
content the field does not equal the on-disk bytes: diffing `{}` against
`{"p": [1]}` yields an `Unexpected` entry with `A = []`, although the on-disk
content of `"p"` is `[1]`. -/
theorem unexpected_entry_a_field :
    (∀ a l : Fixtures, ∀ e ∈ diffPassB a l, e.A = []) ∧
      Fixtures.Diff [] [("p", [1])] = [⟨"p", DiffUnexpected, [], []⟩] ∧
      findEntry [("p", [1])] "p" = some [1] :=
  ⟨fun _ _ _ he => (mem_diffPassB_spec he).2.2.2.1, rfl, rfl⟩

/-- Witness for `unexpected_entry_a_field`: the membership hypothesis of its
first conjunct discharged at the concrete diff of `{}` against `{"p": [1]}`. -/
theorem unexpected_entry_a_field_witness :
    FileDiff.A ⟨"p", DiffUnexpected, [], []⟩ = [] :=
  unexpected_entry_a_field.1 [] [("p", [1])] ⟨"p", DiffUnexpected, [], []⟩ (by decide)

/-- C9: the reconciler built by `Config.GoldenFixtures` does not use the
config's exclusion predicate: even for a config whose `Exclude` excludes
nothing, the reconciler's predicate is `IsDotfile`, so a dotfile on disk is
invisible to `Diff()` (no `Unexpected` entry), while the configured predicate
would have reported it. -/
theorem config_exclude_ignored :
    (Config.GoldenFixtures c9cfg ["x"]).Exclude = IsDotfile ∧
      (Config.GoldenFixtures c9cfg ["x"]).Exclude "d/x/.a" = true ∧
      neverExclude "d/x/.a" = false ∧
      GoldenFixtures.DiffP (Config.GoldenFixtures c9cfg ["x"]) [("d/x/.a", [1])] = [] ∧
      GoldenFixtures.DiffP
          { Config.GoldenFixtures c9cfg ["x"] with Exclude := neverExclude }
          [("d/x/.a", [1])]
        = [⟨"d/x/.a", DiffUnexpected, [], []⟩] :=
  ⟨rfl, rfl, rfl, rfl, rfl⟩

/-- C8: `Fixtures.Add` fails (with the duplicate-path panic) exactly when the
joined path is already a key; otherwise it binds the joined path to the new
content and leaves every other key's binding unchanged. -/
theorem fixtures_add_spec (f : Fixtures) (data : Bytes) (path : List String) :
    ((∃ e, Fixtures.Add f data path = Except.error e) ↔
        (findEntry f (filepathJoin path)).isSome) ∧
      (∀ g, Fixtures.Add f data path = Except.ok g →
        findEntry g (filepathJoin path) = some data ∧
          ∀ q, q ≠ filepathJoin path → findEntry g q = findEntry f q) := by
  unfold Fixtures.Add
  rcases hf : findEntry f (filepathJoin path) with _ | w
  · simp only [hf, Option.isSome_none]
    constructor
    · constructor
      · rintro ⟨e, he⟩
        exact absurd he (by simp)
      · intro h; exact absurd h (by simp)
    · intro g hg
      obtain rfl := (Except.ok.injEq .. ▸ hg)
      constructor
      · simp [findEntry]
      · intro q hq
        simp [findEntry, hq]
  · simp only [hf, Option.isSome_some]
    constructor
    · simp
    · intro g hg
      exact absurd hg (by simp)

/-- Witness for `fixtures_add_spec`: adding `[2]` under path `["a"]` to the
empty set binds `"a"` and leaves the lookup of `"b"` unchanged. -/
theorem fixtures_add_spec_witness :
    findEntry [("a", [2])] (filepathJoin ["a"]) = some [2] ∧
      findEntry [("a", [2])] "b" = findEntry [] "b" := by
  have h := (fixtures_add_spec [] [2] ["a"]).2 [("a", [2])] rfl
  exact ⟨h.1, h.2 "b" (by decide)⟩

/-- C5: with `IgnoreUnexpected` set, the reconciler's diff equals the
unfiltered diff with exactly the `Unexpected` entries removed: the result is
the filter of the `IgnoreUnexpected = false` result, contains no `Unexpected`
entry, and keeps every non-`Unexpected` entry. -/
theorem ignore_unexpected_spec (gf : GoldenFixtures) (disk : Fixtures)
    (h : gf.IgnoreUnexpected = true) :
    gf.DiffP disk
        = (GoldenFixtures.DiffP { gf with IgnoreUnexpected := false } disk).filter
            (fun d => d.Kind != DiffUnexpected) ∧
      (∀ d ∈ gf.DiffP disk, d.Kind ≠ DiffUnexpected) ∧
      (∀ d ∈ GoldenFixtures.DiffP { gf with IgnoreUnexpected := false } disk,
        d.Kind ≠ DiffUnexpected → d ∈ gf.DiffP disk) := by
  have hbase : GoldenFixtures.DiffP { gf with IgnoreUnexpected := false } disk
      = Fixtures.Diff gf.fixtures (Load disk gf.Dir gf.Exclude) := by
    simp [GoldenFixtures.DiffP]
  have hdrop : gf.DiffP disk
      = dropUnexpected (Fixtures.Diff gf.fixtures (Load disk gf.Dir gf.Exclude)) := by
    simp [GoldenFixtures.DiffP, h]
  refine ⟨?_, ?_, ?_⟩
  · rw [hdrop, hbase, dropUnexpected_eq_filter]
  · intro d hd
    rw [hdrop] at hd
    exact (mem_dropUnexpected.mp hd).2
  · intro d hd hkind
    rw [hbase] at hd
    rw [hdrop]
    exact mem_dropUnexpected.mpr ⟨hd, hkind⟩

/-- Witness for `ignore_unexpected_spec` at a reconciler with one missing
fixture and one unexpected on-disk file. -/
theorem ignore_unexpected_spec_witness :
    GoldenFixtures.DiffP gfIgn dskIgn
      = (GoldenFixtures.DiffP { gfIgn with IgnoreUnexpected := false } dskIgn).filter
          (fun d => d.Kind != DiffUnexpected) :=
  (ignore_unexpected_spec gfIgn dskIgn rfl).1

theorem entryLines_eq_map (td : Bytes → Bytes → String) {l : Diff}
    (hk : ∀ d ∈ l, d.Kind = DiffMissing ∨ d.Kind = DiffUnexpected ∨ d.Kind = DiffChanged) :
    entryLines td false l = l.map entryLine := by
  induction l with
  | nil => rfl
  | cons d rest ih =>
    have hd := hk d (List.mem_cons_self _ _)
    have htail := ih (fun e he => hk e (List.mem_cons_of_mem _ he))
    rcases hd with h | h | h <;>
      simp_all [entryLines, entryLine, DiffMissing, DiffUnexpected, DiffChanged]

/-- C4: `compare` returns no error exactly when the diff is empty; on a
non-empty diff (whose entries carry the three legal kinds) it returns the
single aggregate message holding the entry count, one line per entry naming
its kind and path, and the configured hint text. -/
theorem compare_spec (gf : GoldenFixtures) (td : Bytes → Bytes → String) (diff : Diff)
    (hk : ∀ d ∈ diff, d.Kind = DiffMissing ∨ d.Kind = DiffUnexpected ∨ d.Kind = DiffChanged) :
    (∀ diffFlag, (gf.compare td diff diffFlag = none ↔ diff = [])) ∧
      (diff ≠ [] →
        gf.compare td diff false
          = some (toString diff.length ++ " errors:\n"
              ++ joinWith "\n" (diff.map entryLine)
              ++ "\n\nrun `" ++ gf.Hint ++ "` to automatically update all files above")) := by
  constructor
  · intro diffFlag
    unfold GoldenFixtures.compare
    rcases diff with _ | ⟨d, rest⟩
    · simp
    · simp
  · intro hne
    unfold GoldenFixtures.compare
    rw [entryLines_eq_map td hk]
    rcases diff with _ | ⟨d, rest⟩
    · exact absurd rfl hne
    · simp

/-- Witness for `compare_spec` at a one-entry missing diff. -/
theorem compare_spec_witness :
    GoldenFixtures.compare gfCmp tdNone [⟨"p", DiffMissing, [], [1]⟩] false
      = some (toString ([⟨"p", DiffMissing, [], [1]⟩] : Diff).length ++ " errors:\n"
          ++ joinWith "\n" (([⟨"p", DiffMissing, [], [1]⟩] : Diff).map entryLine)
          ++ "\n\nrun `" ++ gfCmp.Hint ++ "` to automatically update all files above") :=
  (compare_spec gfCmp tdNone _ (by decide)).2 (by decide)

theorem no_diff_entry_at_agreeing_path {fx want : Fixtures} (hnd : NodupKeys fx)
    {p : String} {v : Bytes} (hp : findEntry fx p = some v)
    (hw : findEntry want p = some v) :
    ∀ d ∈ Fixtures.Diff fx want, d.Path ≠ p := by
  intro d hd heq
  rcases List.mem_append.mp ((diff_perm_passes fx want).subset hd) with hA | hB
  · obtain ⟨hm, hcase⟩ := mem_diffPassA_spec hA
    have hfB : findEntry fx d.Path = some d.B := findEntry_eq_some_of_mem hnd hm
    rw [heq, hp] at hfB
    have hBv : v = d.B := Option.some.inj hfB
    rcases hcase with ⟨_, hnone, _⟩ | ⟨_, hsome, hne⟩
    · rw [heq, hw] at hnone
      exact Option.noConfusion hnone
    · rw [heq, hw] at hsome
      exact hne (hBv ▸ Option.some.inj hsome)
  · obtain ⟨_, _, hnone, _⟩ := mem_diffPassB_spec hB
    rw [heq, hp] at hnone
    exact Option.noConfusion hnone

theorem no_diff_entry_at_absent_path {fx want : Fixtures} (hnd : NodupKeys fx)
    {p : String} (hp : findEntry fx p = none) (hw : findEntry want p = none) :
    ∀ d ∈ Fixtures.Diff fx want, d.Path ≠ p := by
  intro d hd heq
  rcases List.mem_append.mp ((diff_perm_passes fx want).subset hd) with hA | hB
  · obtain ⟨hm, _⟩ := mem_diffPassA_spec hA
    have hfB : findEntry fx d.Path = some d.B := findEntry_eq_some_of_mem hnd hm
    rw [heq, hp] at hfB
    exact Option.noConfusion hfB
  · obtain ⟨hmemB, _, _, _⟩ := mem_diffPassB_spec hB
    rw [heq] at hmemB
    exact (findEntry_eq_none want p).mp hw hmemB

/-- C7: the output of `Fixtures.Diff` is strictly sorted by path in byte-wise
order (so each path yields at most one entry), and it is the same for any
reorderings of the two input sets. -/
theorem diff_sorted_unique_det (a b a₂ b₂ : Fixtures)
    (ha : NodupKeys a) (hb : NodupKeys b) (hpa : a.Perm a₂) (hpb : b.Perm b₂) :
    List.Pairwise pathLT (Fixtures.Diff a b) ∧
      ((Fixtures.Diff a b).map FileDiff.Path).Nodup ∧
      Fixtures.Diff a b = Fixtures.Diff a₂ b₂ :=
  ⟨diff_sorted_lt ha hb, diff_paths_nodup ha hb, diff_det ha hb hpa hpb⟩

/-- Witness for `diff_sorted_unique_det`: two insertion orders of the same
two-element set diffed against a one-element set. -/
theorem diff_sorted_unique_det_witness :
    List.Pairwise pathLT (Fixtures.Diff [("b", [2]), ("a", [1])] [("c", [3])]) ∧
      ((Fixtures.Diff [("b", [2]), ("a", [1])] [("c", [3])]).map FileDiff.Path).Nodup ∧
      Fixtures.Diff [("b", [2]), ("a", [1])] [("c", [3])]
        = Fixtures.Diff [("a", [1]), ("b", [2])] [("c", [3])] :=
  diff_sorted_unique_det _ _ _ _ (by decide) (by decide) (by decide) (by decide)

/-- C10: `Test()` in update mode only touches paths appearing in the computed
diff: a path bound to byte-equal content in both the in-memory set and the
loaded on-disk set is neither rewritten nor removed by the update pass. -/
theorem update_frame (gf : GoldenFixtures) (disk : Fixtures) (p : String) (v : Bytes)
    (hnd : NodupKeys gf.fixtures)
    (hfx : findEntry gf.fixtures p = some v)
    (hwant : findEntry (Load disk gf.Dir gf.Exclude) p = some v) :
    findEntry (gf.update (gf.DiffP disk) disk) p = findEntry disk p := by
  apply findEntry_update_not_mem
  intro d hd
  have hdfull : d ∈ Fixtures.Diff gf.fixtures (Load disk gf.Dir gf.Exclude) := by
    have hsub : (gf.DiffP disk).Sublist
        (Fixtures.Diff gf.fixtures (Load disk gf.Dir gf.Exclude)) := by
      unfold GoldenFixtures.DiffP
      split
      · exact dropUnexpected_sublist _
      · exact List.Sublist.refl _
    exact hsub.subset hd
  exact no_diff_entry_at_agreeing_path hnd hfx hwant d hdfull

/-- Witness for `update_frame`: a fixture already on disk with identical
content survives an update pass untouched. -/
theorem update_frame_witness :
    findEntry
        (GoldenFixtures.update gfIdem (GoldenFixtures.DiffP gfIdem [("d/a", [1])])
          [("d/a", [1])])
        "d/a"
      = findEntry [("d/a", [1])] "d/a" :=
  update_frame gfIdem [("d/a", [1])] "d/a" [1] (by decide) (by decide) (by decide)

/-- C3 counterexample: `Load` itself does return an error for a non-existent
directory — the walk reports `os.IsNotExist` — together with the empty set;
the error is only discarded later, by `GoldenFixtures.Diff`. -/
theorem load_notexist_cex :
    LoadE dskAbsent "d" IsDotfile = ([], some WalkErr.notExist) ∧
      (LoadE dskAbsent "d" IsDotfile).2 ≠ none :=
  ⟨rfl, by decide⟩

/-- C3 (amended): on a non-existent directory `Load` returns the empty set
together with the not-exist error, and the reconciler's `Diff` treats exactly
that error as success (diffing against the empty set); any other walk error
is returned by `Diff` as a load failure. -/
theorem load_error_spec (d : Disk) (gf : GoldenFixtures) :
    (d.dirExists gf.Dir = false →
      LoadE d gf.Dir gf.Exclude = ([], some WalkErr.notExist) ∧
        GoldenFixtures.DiffE gf d
          = Except.ok (if gf.IgnoreUnexpected
              then dropUnexpected (Fixtures.Diff gf.fixtures [])
              else Fixtures.Diff gf.fixtures [])) ∧
      (∀ m, (LoadE d gf.Dir gf.Exclude).2 = some (WalkErr.other m) →
        GoldenFixtures.DiffE gf d
          = Except.error ("failed to load golden fixtures: " ++ m)) := by
  constructor
  · intro h
    have hL : LoadE d gf.Dir gf.Exclude = ([], some WalkErr.notExist) := by
      unfold LoadE
      rw [h]
      simp
    refine ⟨hL, ?_⟩
    unfold GoldenFixtures.DiffE
    rw [hL]
  · intro m hm
    unfold GoldenFixtures.DiffE
    rcases hL : LoadE d gf.Dir gf.Exclude with ⟨want, err⟩
    rw [hL] at hm
    simp only at hm
    rw [hm]

/-- Witness for `load_error_spec`: a reconciler over an absent directory
diffs against the empty set with no error, and one over a disk whose reads
fail surfaces the load failure. -/
theorem load_error_spec_witness :
    GoldenFixtures.DiffE gfDisk dskAbsent
        = Except.ok (if gfDisk.IgnoreUnexpected
            then dropUnexpected (Fixtures.Diff gfDisk.fixtures [])
            else Fixtures.Diff gfDisk.fixtures []) ∧
      GoldenFixtures.DiffE gfDisk dskBroken
        = Except.error ("failed to load golden fixtures: " ++ "boom") :=
  ⟨((load_error_spec dskAbsent gfDisk).1 rfl).2,
    (load_error_spec dskBroken gfDisk).2 "boom" rfl⟩

theorem diffP_update_empty (gf : GoldenFixtures) (disk : Fixtures)
    (hnd : NodupKeys gf.fixtures) (hdk : NodupKeys disk)
    (hvis : ∀ pv ∈ gf.fixtures, isUnder gf.Dir pv.1 = true ∧ gf.Exclude pv.1 = false) :
    gf.DiffP (gf.update (gf.DiffP disk) disk) = [] := by
  have hndw : NodupKeys (Load disk gf.Dir gf.Exclude) := nodupKeys_Load hdk _ _
  have hsub : (gf.DiffP disk).Sublist
      (Fixtures.Diff gf.fixtures (Load disk gf.Dir gf.Exclude)) := by
    unfold GoldenFixtures.DiffP
    split
    · exact dropUnexpected_sublist _
    · exact List.Sublist.refl _
  have hndpaths₀ : ((gf.DiffP disk).map FileDiff.Path).Nodup :=
    List.Nodup.sublist (hsub.map _) (diff_paths_nodup hnd hndw)
  have hnd' : NodupKeys (gf.update (gf.DiffP disk) disk) := nodupKeys_update gf _ hdk
  have hkey : ∀ p v, findEntry gf.fixtures p = some v →
      findEntry (Load (gf.update (gf.DiffP disk) disk) gf.Dir gf.Exclude) p = some v := by
    intro p v hp
    have hmem : (p, v) ∈ gf.fixtures := mem_of_findEntry_eq_some hp
    have h1 : isUnder gf.Dir p = true := (hvis (p, v) hmem).1
    have h2 : gf.Exclude p = false := (hvis (p, v) hmem).2
    rw [findEntry_Load, if_pos (by rw [h1, h2]; rfl)]
    by_cases hw : findEntry (Load disk gf.Dir gf.Exclude) p = some v
    · have hnoentry : ∀ d ∈ gf.DiffP disk, d.Path ≠ p := fun d hd =>
        no_diff_entry_at_agreeing_path hnd hp hw d (hsub.subset hd)
      rw [findEntry_update_not_mem gf _ disk hnoentry]
      rw [findEntry_Load, if_pos (by rw [h1, h2]; rfl)] at hw
      exact hw
    · obtain ⟨e, heA, hep, hekind⟩ := mem_diffPassA_exists hmem hw
      have hefull : e ∈ Fixtures.Diff gf.fixtures (Load disk gf.Dir gf.Exclude) :=
        (diff_perm_passes _ _).mem_iff.mpr (List.mem_append.mpr (Or.inl heA))
      have hnotu : ¬ e.Kind = DiffUnexpected := by
        rcases hekind with h | h <;> rw [h] <;> decide
      have he₀ : e ∈ gf.DiffP disk := by
        unfold GoldenFixtures.DiffP
        split
        · exact mem_dropUnexpected.mpr ⟨hefull, hnotu⟩
        · exact hefull
      have hupd := findEntry_update_entry gf (gf.DiffP disk) disk hndpaths₀ he₀
      rw [hep, if_neg hnotu, if_pos hekind] at hupd
      rw [hupd, hp]
      rfl
  have hkey2 : gf.IgnoreUnexpected = false → ∀ p, findEntry gf.fixtures p = none →
      findEntry (Load (gf.update (gf.DiffP disk) disk) gf.Dir gf.Exclude) p = none := by
    intro hig p hp
    have hdiffeq : gf.DiffP disk
        = Fixtures.Diff gf.fixtures (Load disk gf.Dir gf.Exclude) := by
      unfold GoldenFixtures.DiffP
      rw [hig]
      simp
    rw [findEntry_Load]
    by_cases hvp : (isUnder gf.Dir p && !gf.Exclude p) = true
    · rw [if_pos hvp]
      rcases hw : findEntry (Load disk gf.Dir gf.Exclude) p with _ | w
      · have hnoentry : ∀ d ∈ gf.DiffP disk, d.Path ≠ p := fun d hd =>
          no_diff_entry_at_absent_path hnd hp hw d (hsub.subset hd)
        rw [findEntry_update_not_mem gf _ disk hnoentry]
        rw [findEntry_Load, if_pos hvp] at hw
        exact hw
      · have hmemw : (p, w) ∈ Load disk gf.Dir gf.Exclude := mem_of_findEntry_eq_some hw
        have hfull : (⟨p, DiffUnexpected, [], []⟩ : FileDiff) ∈
            Fixtures.Diff gf.fixtures (Load disk gf.Dir gf.Exclude) :=
          (diff_perm_passes _ _).mem_iff.mpr
            (List.mem_append.mpr (Or.inr (mem_diffPassB_exists hmemw hp)))
        have h₀ : (⟨p, DiffUnexpected, [], []⟩ : FileDiff) ∈ gf.DiffP disk := by
          rw [hdiffeq]
          exact hfull
        have hupd := findEntry_update_entry gf (gf.DiffP disk) disk hndpaths₀ h₀
        rw [if_pos rfl] at hupd
        exact hupd
    · rw [if_neg hvp]
  have hA' : diffPassA (Load (gf.update (gf.DiffP disk) disk) gf.Dir gf.Exclude)
      gf.fixtures = [] := by
    apply diffPassA_eq_nil
    intro pv hm
    exact hkey pv.1 pv.2 (findEntry_eq_some_of_mem hnd (by simpa using hm))
  by_cases hig : gf.IgnoreUnexpected = true
  · have hkinds : ∀ d ∈ Fixtures.Diff gf.fixtures
        (Load (gf.update (gf.DiffP disk) disk) gf.Dir gf.Exclude),
        d.Kind = DiffUnexpected := by
      intro d hd
      rcases List.mem_append.mp ((diff_perm_passes _ _).subset hd) with hA | hB
      · rw [hA'] at hA
        simp at hA
      · exact (mem_diffPassB_spec hB).2.1
    have heq : gf.DiffP (gf.update (gf.DiffP disk) disk)
        = dropUnexpected (Fixtures.Diff gf.fixtures
            (Load (gf.update (gf.DiffP disk) disk) gf.Dir gf.Exclude)) := by
      unfold GoldenFixtures.DiffP
      rw [hig]
      simp
    rw [heq]
    exact dropUnexpected_eq_nil hkinds
  · have higf : gf.IgnoreUnexpected = false := by
      simpa using hig
    have hB' : diffPassB gf.fixtures
        (Load (gf.update (gf.DiffP disk) disk) gf.Dir gf.Exclude) = [] := by
      apply diffPassB_eq_nil
      intro pv hm
      rcases hf : findEntry gf.fixtures pv.1 with _ | v
      · exfalso
        have hw' := hkey2 higf pv.1 hf
        have hndw' : NodupKeys (Load (gf.update (gf.DiffP disk) disk) gf.Dir gf.Exclude) :=
          nodupKeys_Load hnd' _ _
        have hsome := findEntry_eq_some_of_mem hndw'
          (show (pv.1, pv.2) ∈ _ from by simpa using hm)
        rw [hw'] at hsome
        exact Option.noConfusion hsome
      · rfl
    have heq : gf.DiffP (gf.update (gf.DiffP disk) disk)
        = Fixtures.Diff gf.fixtures
            (Load (gf.update (gf.DiffP disk) disk) gf.Dir gf.Exclude) := by
      unfold GoldenFixtures.DiffP
      rw [higf]
      simp
    rw [heq]
    unfold Fixtures.Diff
    rw [hA', hB']
    rfl

/-- C1 (amended): provided every in-memory fixture path lies below the
reconciler's directory and is not excluded by its exclusion predicate,
`Test()` in update mode succeeds and leaves the disk in the updated state, an
immediately following `Diff()` over the same in-memory set is empty, and a
second `Test()` in update mode performs no writes or removes (its diff is
empty, so the disk state is returned unchanged) and returns no error. -/
theorem test_update_idempotent (gf : GoldenFixtures) (td : Bytes → Bytes → String)
    (disk : Fixtures) (hfl : gf.Flags = "update")
    (hnd : NodupKeys gf.fixtures) (hdk : NodupKeys disk)
    (hvis : ∀ pv ∈ gf.fixtures, isUnder gf.Dir pv.1 = true ∧ gf.Exclude pv.1 = false) :
    GoldenFixtures.Test gf td disk = Except.ok (gf.update (gf.DiffP disk) disk) ∧
      gf.DiffP (gf.update (gf.DiffP disk) disk) = [] ∧
      GoldenFixtures.Test gf td (gf.update (gf.DiffP disk) disk)
        = Except.ok (gf.update (gf.DiffP disk) disk) := by
  have hempty := diffP_update_empty gf disk hnd hdk hvis
  have hpf : parseFlags "update" = Except.ok ["update"] := rfl
  have hTest : ∀ dsk : Fixtures,
      GoldenFixtures.Test gf td dsk = Except.ok (gf.update (gf.DiffP dsk) dsk) := by
    intro dsk
    unfold GoldenFixtures.Test
    rw [hfl, hpf]
    simp [FlagUpdate]
  refine ⟨hTest disk, hempty, ?_⟩
  rw [hTest (gf.update (gf.DiffP disk) disk), hempty]
  rfl

/-- Witness for `test_update_idempotent` at a reconciler with one
loader-visible fixture and an empty disk. -/
theorem test_update_idempotent_witness :
    GoldenFixtures.Test gfIdem tdNone []
        = Except.ok (gfIdem.update (gfIdem.DiffP []) []) ∧
      gfIdem.DiffP (gfIdem.update (gfIdem.DiffP []) []) = [] ∧
      GoldenFixtures.Test gfIdem tdNone (gfIdem.update (gfIdem.DiffP []) [])
        = Except.ok (gfIdem.update (gfIdem.DiffP []) []) :=
  test_update_idempotent gfIdem tdNone [] rfl (by decide) (by decide) (by decide)

/-- C1 counterexample: for a reconciler whose fixture is a dotfile (which the
exclusion predicate hides from the loader), `Test()` in update mode succeeds
— it writes the file and returns no error — yet the immediately following
`Diff()` still reports the fixture as missing. -/
theorem test_update_idempotent_cex :
    GoldenFixtures.Test gfDot tdNone [] = Except.ok [("d/.a", [1])] ∧
      GoldenFixtures.DiffP gfDot [("d/.a", [1])] ≠ [] := by
  constructor
  · rfl
  · decide

end Goldy
